import Mathlib

/-!
Verification development for the SHACL-to-XSD lowering engine
(src/xsd2shacl/SHACLtoXSD.py).  The definitions below are a shallow
embedding of that engine: the RDF graph is a list of triples queried in
list order (mirroring rdflib value/objects/subjects lookups), the XML
output tree is a first-order tree of tagged nodes, and the stateful
Python methods become state-passing functions.  The mutually recursive
node-shape traversal is instrumented with an explicit fuel parameter;
running out of fuel is the outer Option layer, while the Python value
None is the inner Option layer.  The rdf-list walker of the source is a
while loop that can only diverge on a cyclic rest chain; it is embedded
with an internal step bound of one more than the graph size, which is
exact on every non-cyclic chain.
-/

/-- RDF node: named IRI, literal (by its lexical form), or blank node. -/
inductive RDFNode where
  | uri (s : String)
  | lit (s : String)
  | bnode (s : String)
deriving DecidableEq

/-- The string rendering of a node, as Python str() of a rdflib term. -/
def nodeStr : RDFNode → String
  | .uri s => s
  | .lit s => s
  | .bnode s => s

/-- Python truthiness of an optional rdflib term (str subclasses:
falsy iff absent or the empty string). -/
def truthy : Option RDFNode → Bool
  | none => false
  | some n => decide (nodeStr n ≠ "")

/-- A graph is a list of (subject, predicate, object) triples. -/
abbrev Graph := List (RDFNode × RDFNode × RDFNode)

def tripleMatches (s p : RDFNode) (t : RDFNode × RDFNode × RDFNode) : Bool :=
  decide (t.1 = s) && decide (t.2.1 = p)

/-- Graph.value: the first object for a subject and predicate. -/
def value (g : Graph) (s p : RDFNode) : Option RDFNode :=
  (List.find? (tripleMatches s p) g).map (fun t => t.2.2)

/-- Graph.objects: all objects for a subject and predicate, in graph order. -/
def objects (g : Graph) (s p : RDFNode) : List RDFNode :=
  (List.filter (tripleMatches s p) g).map (fun t => t.2.2)

/-- Graph.subjects: all subjects with a given predicate and object. -/
def subjects (g : Graph) (p o : RDFNode) : List RDFNode :=
  (List.filter (fun t => decide (t.2.1 = p) && decide (t.2.2 = o)) g).map (fun t => t.1)

/-- Triple membership test, as the Python `(s, p, o) in graph`. -/
def hasTriple (g : Graph) (s p o : RDFNode) : Bool :=
  List.any g (fun t => decide (t = (s, p, o)))

/-- Existence of any triple with the given subject and predicate,
as the Python `(s, p, None) in graph`. -/
def hasTripleSP (g : Graph) (s p : RDFNode) : Bool :=
  List.any g (tripleMatches s p)

/- Namespace constants used by the engine. -/
def shName : RDFNode := .uri "http://www.w3.org/ns/shacl#name"
def shNode : RDFNode := .uri "http://www.w3.org/ns/shacl#node"
def shXone : RDFNode := .uri "http://www.w3.org/ns/shacl#xone"
def shOr : RDFNode := .uri "http://www.w3.org/ns/shacl#or"
def shProperty : RDFNode := .uri "http://www.w3.org/ns/shacl#property"
def shTargetClass : RDFNode := .uri "http://www.w3.org/ns/shacl#targetClass"
def shIn : RDFNode := .uri "http://www.w3.org/ns/shacl#in"
def shDatatype : RDFNode := .uri "http://www.w3.org/ns/shacl#datatype"
def shMinCount : RDFNode := .uri "http://www.w3.org/ns/shacl#minCount"
def shMaxCount : RDFNode := .uri "http://www.w3.org/ns/shacl#maxCount"
def shPattern : RDFNode := .uri "http://www.w3.org/ns/shacl#pattern"
def shMinExclusive : RDFNode := .uri "http://www.w3.org/ns/shacl#minExclusive"
def shMaxExclusive : RDFNode := .uri "http://www.w3.org/ns/shacl#maxExclusive"
def shMinInclusive : RDFNode := .uri "http://www.w3.org/ns/shacl#minInclusive"
def shMaxInclusive : RDFNode := .uri "http://www.w3.org/ns/shacl#maxInclusive"
def shMinLength : RDFNode := .uri "http://www.w3.org/ns/shacl#minLength"
def shMaxLength : RDFNode := .uri "http://www.w3.org/ns/shacl#maxLength"
def shLength : RDFNode := .uri "http://www.w3.org/ns/shacl#length"
def shPath : RDFNode := .uri "http://www.w3.org/ns/shacl#path"
def shNodeShape : RDFNode := .uri "http://www.w3.org/ns/shacl#NodeShape"
def shPropertyShape : RDFNode := .uri "http://www.w3.org/ns/shacl#PropertyShape"
def rdfType : RDFNode := .uri "http://www.w3.org/1999/02/22-rdf-syntax-ns#type"
def rdfFirst : RDFNode := .uri "http://www.w3.org/1999/02/22-rdf-syntax-ns#first"
def rdfRest : RDFNode := .uri "http://www.w3.org/1999/02/22-rdf-syntax-ns#rest"
def rdfNil : RDFNode := .uri "http://www.w3.org/1999/02/22-rdf-syntax-ns#nil"

/-- Does the first character list start with the second one. -/
def listStartsWith : List Char → List Char → Bool
  | _, [] => true
  | [], _ :: _ => false
  | a :: as, b :: bs => decide (a = b) && listStartsWith as bs

/-- Left-to-right non-overlapping split on a separator, the Python
str.split semantics, with an explicit step bound (each step consumes at
least one character, so one more than the length always suffices). -/
def splitListAux (sep : List Char) : Nat → List Char → List Char → List (List Char)
  | 0, s, acc => [acc.reverse ++ s]
  | _ + 1, [], acc => [acc.reverse]
  | fl + 1, c :: rest, acc =>
    if listStartsWith (c :: rest) sep then
      acc.reverse :: splitListAux sep fl ((c :: rest).drop sep.length) []
    else splitListAux sep fl rest (c :: acc)

/-- Python s.split(sub). -/
def pySplit (s sub : String) : List String :=
  (splitListAux sub.data (s.data.length + 1) s.data []).map (fun l => String.mk l)

/-- Python s.split(sub)[-1]. -/
def lastSplit (s sub : String) : String :=
  ((pySplit s sub).getLast?).getD s

/-- Python `sub in s` substring containment. -/
def strContains (s sub : String) : Bool :=
  decide ((pySplit s sub).length > 1)

/-- Python s.startswith(pre). -/
def pyStartsWith (s pre : String) : Bool :=
  listStartsWith s.data pre.data

/-- Python s[n:]. -/
def pyDrop (s : String) (n : Nat) : String :=
  String.mk (s.data.drop n)

/-- The local name of an IRI text: everything after the last hash,
as the Python split on the hash character, last component. -/
def localName (s : String) : String := lastSplit s "#"

/-- Python int() of a literal, with 0 on unparsable text (the source
would raise there; no claim exercises that case). -/
def pyInt (n : RDFNode) : Int := ((nodeStr n).toInt?).getD 0

/-- Output tree node: an XML element with a tag, attributes
in insertion order, and child elements.  Tags are stored as local
names; the source always uses one fixed schema namespace prefix, so
its tag.endswith checks coincide with equality on local names. -/
inductive XML where
  | elem (tag : String) (attrs : List (String × String)) (children : List XML)

def XML.tag : XML → String
  | .elem t _ _ => t

def XML.attrs : XML → List (String × String)
  | .elem _ a _ => a

def XML.children : XML → List XML
  | .elem _ _ c => c

/-- Attribute lookup, as ElementTree get. -/
def XML.getAttr (x : XML) (k : String) : Option String :=
  (x.attrs.find? (fun p => decide (p.1 = k))).map (fun p => p.2)

def setPairs (k v : String) (l : List (String × String)) : List (String × String) :=
  if l.any (fun p => decide (p.1 = k)) then
    l.map (fun p => if p.1 = k then (k, v) else p)
  else l ++ [(k, v)]

/-- ElementTree set: overwrite in place or append a new attribute. -/
def XML.setAttr (x : XML) (k v : String) : XML :=
  match x with
  | .elem t a c => .elem t (setPairs k v a) c

/-- ElementTree del of an attribute key. -/
def XML.delAttr (x : XML) (k : String) : XML :=
  match x with
  | .elem t a c => .elem t (a.filter (fun p => decide (p.1 ≠ k))) c

/-- ElementTree append / SubElement: add a child at the end. -/
def XML.addChild (x : XML) (ch : XML) : XML :=
  match x with
  | .elem t a c => .elem t a (c ++ [ch])

/-- Replace the first child carrying a given tag (models mutating a
child found by a tag scan). -/
def replaceFirstByTag (tg : String) (new : XML) : List XML → List XML
  | [] => []
  | c :: cs => if c.tag = tg then new :: cs else c :: replaceFirstByTag tg new cs

def XML.replaceChildByTag (x : XML) (tg : String) (new : XML) : XML :=
  match x with
  | .elem t a c => .elem t a (replaceFirstByTag tg new c)

/-- Conversion-pass state: the processed set, the two shape caches, and
the accumulated children of the schema root, in append order. -/
structure ConvState where
  processed : List RDFNode
  nodeShapeMap : List (RDFNode × XML)
  propertyShapeMap : List (RDFNode × XML)
  root : List XML

def lookupMap (m : List (RDFNode × XML)) (k : RDFNode) : Option XML :=
  (m.find? (fun p => decide (p.1 = k))).map (fun p => p.2)

def initState : ConvState := ⟨[], [], [], []⟩

/-- One step of the rdf-list walk (get_rdf_list_items): stop at the nil
terminator; collect the payload when its lookup is truthy; advance along
rest when truthy, else stop.  The step bound only limits cyclic rest
chains, on which the Python loop would not terminate. -/
def getRdfListItemsAux (g : Graph) : Nat → RDFNode → List RDFNode
  | 0, _ => []
  | Nat.succ f, l =>
    if l = rdfNil then []
    else
      let item := value g l rdfFirst
      let hd := if truthy item then [item.getD rdfNil] else []
      let rest := value g l rdfRest
      if truthy rest then hd ++ getRdfListItemsAux g f (rest.getD rdfNil)
      else hd

/-- get_rdf_list_items: walk an rdf list into its payload sequence. -/
def getRdfListItems (g : Graph) (l : RDFNode) : List RDFNode :=
  getRdfListItemsAux g (g.length + 1) l

/-- are_simple_type_constraints: every branch declares a datatype. -/
def areSimpleTypeConstraints (g : Graph) (items : List RDFNode) : Bool :=
  items.all (fun i => truthy (value g i shDatatype))

/-- The memberTypes text of a union: the datatype local names of the
branches that carry one, joined by single spaces. -/
def unionMemberTypes (g : Graph) (items : List RDFNode) : String :=
  String.intercalate " " (items.filterMap (fun i =>
    let d := value g i shDatatype
    if truthy d then some (localName (nodeStr (d.getD (RDFNode.lit "")))) else none))

/-- get_shape_name: explicit sh:name label when truthy, else a name
derived from the identity text. -/
def getShapeName (g : Graph) (shape : RDFNode) : String :=
  let n := value g shape shName
  if truthy n then nodeStr (n.getD (RDFNode.lit ""))
  else
    let u := nodeStr shape
    if strContains u "NodeShape/" then lastSplit u "NodeShape/"
    else if strContains u "PropertyShape/" then
      let p := lastSplit u "PropertyShape/"
      if pyStartsWith p "@" then pyDrop p 1 else p
    else lastSplit u "/"

/-- The attribute-vs-element classifier of process_property_shape. -/
def psIsAttribute (g : Graph) (shape : RDFNode) : Bool :=
  strContains (nodeStr shape) "@" || pyStartsWith (getShapeName g shape) "@"

/-- The display name of a property shape, with the attribute marker
stripped. -/
def psName (g : Graph) (shape : RDFNode) : String :=
  let n := getShapeName g shape
  if psIsAttribute g shape && pyStartsWith n "@" then pyDrop n 1 else n

/-- The base type used for an inline enumeration restriction:
the declared datatype local name, else the string default. -/
def listBaseType (g : Graph) (shape : RDFNode) : String :=
  let d := value g shape shDatatype
  if truthy d then localName (nodeStr (d.getD (RDFNode.lit ""))) else "string"

/-- One enumeration facet. -/
def enumFacet (v : RDFNode) : XML :=
  XML.elem "enumeration" [("value", nodeStr v)] []

/-- process_list_constraints: compile the sh:in value of a property
shape onto its element. -/
def processListConstraints (g : Graph) (shape : RDFNode) (el : XML) : XML :=
  match (objects g shape shIn).head? with
  | none => el
  | some inVal =>
    if hasTripleSP g inVal rdfFirst then
      let values := getRdfListItems g inVal
      if values.length = 1 then
        (el.setAttr "fixed" (nodeStr (values.headD (RDFNode.lit "")))).delAttr "type"
      else if values.isEmpty then el
      else
        (el.addChild (XML.elem "simpleType" []
          [XML.elem "restriction" [("base", listBaseType g shape)] (values.map enumFacet)])).delAttr "type"
    else if inVal = rdfNil then el
    else el.setAttr "fixed" (nodeStr inVal)

/-- The numeric-bound facets, in the emission order of the source. -/
def numericFacetList (minEx maxEx minInc maxInc : Option RDFNode) : List XML :=
  (minEx.map (fun v => XML.elem "minExclusive" [("value", nodeStr v)] [])).toList ++
  (maxEx.map (fun v => XML.elem "maxExclusive" [("value", nodeStr v)] [])).toList ++
  (minInc.map (fun v => XML.elem "minInclusive" [("value", nodeStr v)] [])).toList ++
  (maxInc.map (fun v => XML.elem "maxInclusive" [("value", nodeStr v)] [])).toList

/-- The length-family facets: an exact length facet when sh:length is
present or both bounds agree, else the present bound facets. -/
def lengthFacetList (minL maxL exactL : Option RDFNode) : List XML :=
  let exact := if exactL.isNone ∧ minL.isSome ∧ maxL.isSome ∧ minL = maxL then minL else exactL
  match exact with
  | some v => [XML.elem "length" [("value", nodeStr v)] []]
  | none =>
    (minL.map (fun v => XML.elem "minLength" [("value", nodeStr v)] [])).toList ++
    (maxL.map (fun v => XML.elem "maxLength" [("value", nodeStr v)] [])).toList

/-- process_facet_constraints: compile pattern, numeric-bound and
length facets onto an existing or fresh inline restriction.  The early
return reproduces the source exactly: it tests only the pattern and the
length facets, not the numeric bounds (the needs_restriction variable
of the source is computed but never read). -/
def processFacetConstraints (g : Graph) (shape : RDFNode) (el : XML) : XML :=
  let pat := value g shape shPattern
  let d := value g shape shDatatype
  let baseType := if truthy d then localName (nodeStr (d.getD (RDFNode.lit ""))) else "decimal"
  let minEx := value g shape shMinExclusive
  let maxEx := value g shape shMaxExclusive
  let minInc := value g shape shMinInclusive
  let maxInc := value g shape shMaxInclusive
  let minL := value g shape shMinLength
  let maxL := value g shape shMaxLength
  let exactL := value g shape shLength
  if ¬(truthy pat || minL.isSome || maxL.isSome || exactL.isSome) then el
  else
    let stOld := el.children.find? (fun c => decide (c.tag = "simpleType"))
    let simpleTypeBase := stOld.getD (XML.elem "simpleType" [] [])
    let restOld := simpleTypeBase.children.find? (fun c => decide (c.tag = "restriction"))
    let r0 := restOld.getD (XML.elem "restriction" [("base", baseType)] [])
    let patF := if truthy pat then
        [XML.elem "pattern" [("value", nodeStr (pat.getD (RDFNode.lit "")))] []]
      else []
    let facets := patF ++ numericFacetList minEx maxEx minInc maxInc ++
      lengthFacetList minL maxL exactL
    let r1 := XML.elem r0.tag r0.attrs (r0.children ++ facets)
    let st1 := if restOld.isSome then simpleTypeBase.replaceChildByTag "restriction" r1
      else simpleTypeBase.addChild r1
    let el1 := if stOld.isSome then el.replaceChildByTag "simpleType" st1
      else el.addChild st1
    if restOld.isSome then el1 else el1.delAttr "type"

/-- process_property_shape: lower one property shape to an element or
attribute node (inner Option is the Python None result). -/
def processPropertyShape (g : Graph) (st : ConvState) (shape : RDFNode) :
    Option XML × ConvState :=
  if shape ∈ st.processed then (lookupMap st.propertyShapeMap shape, st)
  else
    let st1 : ConvState := { st with processed := shape :: st.processed }
    let isAttr := psIsAttribute g shape
    let nm := psName g shape
    match value g shape shPath with
    | none => (none, st1)
    | some _ =>
      let el0 := XML.elem (if isAttr then "attribute" else "element") [("name", nm)] []
      let orNodes := objects g shape shOr
      if ¬orNodes.isEmpty && ¬isAttr then
        let orNode := orNodes.headD rdfNil
        let items := getRdfListItems g orNode
        let inner := if areSimpleTypeConstraints g items then
            XML.elem "union" [("memberTypes", unionMemberTypes g items)] []
          else XML.elem "restriction" [("base", "string")] []
        let el := el0.addChild (XML.elem "simpleType" [] [inner])
        (some el, { st1 with propertyShapeMap := (shape, el) :: st1.propertyShapeMap })
      else
        let d := value g shape shDatatype
        let el1 := if truthy d then
            el0.setAttr "type" (localName (nodeStr (d.getD (RDFNode.lit "")))) else el0
        let el2 := match value g shape shMinCount with
          | some mc =>
            if isAttr then
              (if pyInt mc > 0 then el1.setAttr "use" "required"
               else el1.setAttr "use" "optional")
            else (if nodeStr mc ≠ "1" then el1.setAttr "minOccurs" (nodeStr mc) else el1)
          | none => if isAttr then el1.setAttr "use" "optional" else el1
        let el3 := match value g shape shMaxCount with
          | some xc =>
            if ¬isAttr ∧ nodeStr xc ≠ "1" then el2.setAttr "maxOccurs" (nodeStr xc) else el2
          | none => el2
        let el4 := processListConstraints g shape el3
        let el5 := processFacetConstraints g shape el4
        (some el5, { st1 with propertyShapeMap := (shape, el5) :: st1.propertyShapeMap })

/-- The property loop of process_node_shape: lower each referenced
property shape in order, keeping the non-None results in order. -/
def lowerProps (g : Graph) : List RDFNode → ConvState → List XML × ConvState
  | [], st => ([], st)
  | p :: ps, st =>
    let r := processPropertyShape g st p
    let rest := lowerProps g ps r.2
    (r.1.toList ++ rest.1, rest.2)

/-- The complex type assembled by process_node_shape from the base
name, the xone and or renderings, and the property results. -/
def nodeShapeCT (g : Graph) (shape : RDFNode) (baseName : Option String)
    (xc oc : Option XML) (results : List XML) : XML :=
  let shapeName := getShapeName g shape
  let propNodes := objects g shape shProperty
  let cuChildren := xc.toList ++ oc.toList
  let hasCU := ¬(objects g shape shXone).isEmpty || ¬(objects g shape shOr).isEmpty
  let elemsOnly := results.filter (fun x => decide (x.tag = "element"))
  let attrsOnly := results.filter (fun x => decide (x.tag = "attribute"))
  let mixed := results.filter
    (fun x => decide (x.tag = "element") || decide (x.tag = "attribute"))
  match baseName with
  | some bn =>
    let extKids := cuChildren ++ (if propNodes.isEmpty then []
      else if hasCU then elemsOnly else [XML.elem "all" [] elemsOnly])
    XML.elem "complexType" [("name", shapeName)]
      (XML.elem "complexContent" [] [XML.elem "extension" [("base", bn)] extKids]
        :: (if propNodes.isEmpty then [] else attrsOnly))
  | none =>
    let bodyKids := cuChildren ++ (if propNodes.isEmpty then []
      else if hasCU then mixed else XML.elem "all" [] elemsOnly :: attrsOnly)
    XML.elem "complexType" [("name", shapeName)] bodyKids

/-- The target-class elements emitted for a node shape: one element per
target class, named after the shape; its type is the base name when the
shortcut of the source holds (an extension exists, every direct child
of the type is the complexContent wrapper, and the shape declares no
sh:property triples), else the shape name. -/
def nodeShapeTElems (g : Graph) (shape : RDFNode) (baseName : Option String)
    (ct : XML) : List XML :=
  let shortcut := baseName.isSome &&
    ct.children.all (fun c => decide (c.tag = "complexContent")) &&
    (objects g shape shProperty).isEmpty
  let tyName := if shortcut then baseName.getD "" else getShapeName g shape
  (objects g shape shTargetClass).map
    (fun _ => XML.elem "element" [("name", getShapeName g shape), ("type", tyName)] [])

/-- The pure tail of process_node_shape, run once the base, xone and or
steps have produced their results: lower the referenced property shapes,
assemble the complex type, store it in the node-shape cache, and append
the target-class elements followed by the type itself to the root. -/
def nodeShapeFinish (g : Graph) (shape : RDFNode) (baseName : Option String)
    (xc oc : Option XML) (st4 : ConvState) : Option XML × ConvState :=
  let pr := lowerProps g (objects g shape shProperty) st4
  let ct := nodeShapeCT g shape baseName xc oc pr.1
  (some ct,
    { pr.2 with
      nodeShapeMap := (shape, ct) :: pr.2.nodeShapeMap,
      root := pr.2.root ++ nodeShapeTElems g shape baseName ct ++ [ct] })

mutual

/-- process_node_shape: lower a node shape to a complex type, resolve
its base by recursion, then hand over to the xone stage.  The outer
Option is fuel exhaustion; the inner Option is the Python None returned
when a cached entry is absent (the re-entrant case). -/
def processNodeShape : Nat → Graph → ConvState → RDFNode → Option (Option XML × ConvState)
  | 0, _, _, _ => none
  | Nat.succ f, g, st, shape =>
    if shape ∈ st.processed then some (lookupMap st.nodeShapeMap shape, st)
    else
      match (objects g shape shNode).head? with
      | none => nodeShapeAfterBase f g { st with processed := shape :: st.processed } shape none
      | some b =>
        (processNodeShape f g { st with processed := shape :: st.processed } b).bind
          (fun q => nodeShapeAfterBase f g q.2 shape (q.1.map (fun _ => getShapeName g b)))

/-- The xone stage of process_node_shape: render the first sh:xone list
as a choice, then hand over to the or stage. -/
def nodeShapeAfterBase : Nat → Graph → ConvState → RDFNode → Option String → Option (Option XML × ConvState)
  | 0, _, _, _, _ => none
  | Nat.succ f, g, st2, shape, baseName =>
    match (objects g shape shXone).head? with
    | none => nodeShapeAfterXone f g st2 shape baseName none
    | some l =>
      (processChoiceConstraint f g st2 l true).bind
        (fun p => nodeShapeAfterXone f g p.2 shape baseName (some p.1))

/-- The or stage of process_node_shape: render the first sh:or list as
a union or choice, then run the pure assembly tail. -/
def nodeShapeAfterXone : Nat → Graph → ConvState → RDFNode → Option String → Option XML → Option (Option XML × ConvState)
  | 0, _, _, _, _, _ => none
  | Nat.succ f, g, st3, shape, baseName, xc =>
    match (objects g shape shOr).head? with
    | none => some (nodeShapeFinish g shape baseName xc none st3)
    | some l =>
      (processChoiceConstraint f g st3 l false).map
        (fun p => nodeShapeFinish g shape baseName xc (some p.1) p.2)

/-- process_choice_constraint: an sh:xone list becomes a choice; an
sh:or list becomes a value union when the branches are scalar-uniform,
else a choice over the lowered branches. -/
def processChoiceConstraint : Nat → Graph → ConvState → RDFNode → Bool → Option (XML × ConvState)
  | 0, _, _, _, _ => none
  | Nat.succ f, g, st, l, isXone =>
    if isXone then
      (processRdfListItems f g st (getRdfListItems g l)).map
        (fun p => (XML.elem "choice" [] p.1, p.2))
    else
      let items := getRdfListItems g l
      if areSimpleTypeConstraints g items then
        some (XML.elem "simpleType" []
          [XML.elem "union" [("memberTypes", unionMemberTypes g items)] []], st)
      else
        (processRdfListItems f g st items).map
          (fun p => (XML.elem "choice" [] p.1, p.2))

/-- process_rdf_list over the already-walked item sequence: property
shape items are lowered inline, other items are lowered as node shapes
and referenced through a ref element when the lowering yields a node. -/
def processRdfListItems : Nat → Graph → ConvState → List RDFNode → Option (List XML × ConvState)
  | 0, _, _, _ => none
  | Nat.succ _, _, st, [] => some ([], st)
  | Nat.succ f, g, st, i :: is =>
    if hasTriple g i rdfType shPropertyShape then
      let r := processPropertyShape g st i
      (processRdfListItems f g r.2 is).map (fun p => (r.1.toList ++ p.1, p.2))
    else
      (processNodeShape f g st i).bind (fun q =>
        (processRdfListItems f g q.2 is).map (fun p =>
          ((if q.1.isSome then [XML.elem "element" [("ref", getShapeName g i)] []] else [])
            ++ p.1, p.2)))

end

/-- convert: lower every typed node shape, then every property shape
not reached through a node shape, appending standalone element results
to the root. -/
def runConvert (fuel : Nat) (g : Graph) : Option ConvState :=
  let nodeShapes := subjects g rdfType shNodeShape
  let step1 : Option ConvState := nodeShapes.foldl
    (fun acc ns => acc.bind (fun st => (processNodeShape fuel g st ns).map (fun p => p.2)))
    (some initState)
  step1.map (fun st1 =>
    let propShapes := (subjects g rdfType shPropertyShape).filter
      (fun ps => decide (ps ∉ st1.processed))
    propShapes.foldl (fun st ps =>
      let r := processPropertyShape g st ps
      match r.1 with
      | some e => if e.tag = "element" then { r.2 with root := r.2.root ++ [e] } else r.2
      | none => r.2) st1)

/-- Every object occurring in the graph; all recursion targets of the
traversal (base references and rdf-list payloads) lie in this list. -/
def gNodes (g : Graph) : List RDFNode := g.map (fun t => t.2.2)

/-- The count of graph objects not yet marked processed: the measure
that shrinks whenever the traversal enters a new shape. -/
def unprocessedCount (g : Graph) (pr : List RDFNode) : Nat :=
  ((gNodes g).filter (fun n => decide (n ∉ pr))).length

/- Concrete inputs used by the per-claim counterexamples and witnesses. -/

def csA : RDFNode := .uri "e/NodeShape/A"
def csB : RDFNode := .uri "e/NodeShape/B"
def csP : RDFNode := .uri "e/PropertyShape/p"
def csQ : RDFNode := .uri "e/PropertyShape/q"
def csL : RDFNode := .bnode "L"
def csL2 : RDFNode := .bnode "L2"
def csBr1 : RDFNode := .bnode "br1"
def csBr2 : RDFNode := .bnode "br2"
def xsdString : RDFNode := .uri "http://www.w3.org/2001/XMLSchema#string"
def xsdInteger : RDFNode := .uri "http://www.w3.org/2001/XMLSchema#integer"

/-- C1 input: a property shape carrying only a numeric bound. -/
def csG1 : Graph := [(csP, shPath, .uri "e/p"), (csP, shMinInclusive, .lit "0")]
def csEl1 : XML := .elem "element" [("name", "p"), ("type", "decimal")] []

/-- C2 input: two node shapes, each with a target class. -/
def csG2 : Graph :=
  [(csA, rdfType, shNodeShape), (csA, shTargetClass, .uri "e/TA"),
   (csB, rdfType, shNodeShape), (csB, shTargetClass, .uri "e/TB")]

/-- C3 and C4 input: a node shape whose base reference is itself. -/
def csG3 : Graph := [(csA, rdfType, shNodeShape), (csA, shNode, csA)]

/-- Witness input: a single plain node shape. -/
def csGW : Graph := [(csA, rdfType, shNodeShape)]
def csCTW : XML := .elem "complexType" [("name", "A")] []
def csStW : ConvState := ⟨[csA], [(csA, csCTW)], [], [csCTW]⟩

/-- C5 witness input: an enumeration list with two members. -/
def csG5 : Graph :=
  [(csQ, shIn, csL), (csL, rdfFirst, .lit "x"), (csL, rdfRest, csL2),
   (csL2, rdfFirst, .lit "y"), (csL2, rdfRest, rdfNil), (csQ, shDatatype, xsdString)]
def csEl5 : XML := .elem "element" [("name", "q"), ("type", "string")] []

/-- C6 witness input: an sh:or list with two datatype-only branches. -/
def csG6 : Graph :=
  [(csL, rdfFirst, csBr1), (csL, rdfRest, csL2), (csL2, rdfFirst, csBr2),
   (csL2, rdfRest, rdfNil), (csBr1, shDatatype, xsdString), (csBr2, shDatatype, xsdInteger)]

/-- C7 input: a node shape with a base, an exclusive choice, a target
class, and no sh:property triples. -/
def csG7 : Graph :=
  [(csA, rdfType, shNodeShape), (csA, shNode, csB), (csA, shXone, csL),
   (csL, rdfFirst, csP), (csL, rdfRest, rdfNil), (csP, rdfType, shPropertyShape),
   (csP, shPath, .uri "e/p"), (csA, shTargetClass, .uri "e/TA")]

/-- C7 witness input: a node shape with only a base and a target class. -/
def csGW7 : Graph := [(csA, shNode, csB), (csA, shTargetClass, .uri "e/TA")]
def csCTB : XML := .elem "complexType" [("name", "B")] []
def csCTA : XML := .elem "complexType" [("name", "A")]
  [.elem "complexContent" [] [.elem "extension" [("base", "B")] []]]
def csElA : XML := .elem "element" [("name", "A"), ("type", "B")] []
def csBq7 : Option XML × ConvState :=
  (some csCTB, ⟨[csB, csA], [(csB, csCTB)], [], [csCTB]⟩)
def csSt7 : ConvState :=
  ⟨[csB, csA], [(csA, csCTA), (csB, csCTB)], [], [csCTB, csElA, csCTA]⟩

/-- C7 own-name witness values: lowering the first shape of csG2 (no
base, one target class) emits a top-level element typed with the
shape's own name. -/
def csElA2 : XML := .elem "element" [("name", "A"), ("type", "A")] []
def csStC2 : ConvState := ⟨[csA], [(csA, csCTW)], [], [csElA2, csCTW]⟩

/-! Helper lemmas: list counting, graph membership, and the measure. -/

theorem filterLengthMono {α : Type} (L : List α) (p q : α → Bool)
    (h : ∀ a, p a = true → q a = true) :
    (L.filter p).length ≤ (L.filter q).length := by
  induction L with
  | nil => simp
  | cons a t ih =>
    simp only [List.filter_cons]
    cases hp : p a with
    | true =>
      have hq := h a hp
      simp only [hp, hq, if_true]
      simpa using ih
    | false =>
      cases hq : q a with
      | true =>
        simp only [hp, hq]
        simp only [Bool.false_eq_true, if_false, if_true, List.length_cons]
        omega
      | false =>
        simp only [hp, hq, Bool.false_eq_true, if_false]
        exact ih

theorem filterLengthLt {α : Type} (L : List α) (p q : α → Bool) (x : α)
    (h : ∀ a, p a = true → q a = true) (hx : x ∈ L) (hqx : q x = true)
    (hpx : p x = false) :
    (L.filter p).length < (L.filter q).length := by
  induction L with
  | nil => cases hx
  | cons a t ih =>
    simp only [List.filter_cons]
    rcases List.mem_cons.mp hx with rfl | hxt
    · simp only [hpx, hqx, Bool.false_eq_true, if_false, if_true, List.length_cons]
      exact Nat.lt_succ_of_le (filterLengthMono t p q h)
    · cases hp : p a with
      | true =>
        have hq := h a hp
        simp only [hp, hq, if_true, List.length_cons]
        exact Nat.succ_lt_succ (ih hxt)
      | false =>
        cases hq : q a with
        | true =>
          simp only [hp, hq, Bool.false_eq_true, if_false, if_true, List.length_cons]
          exact Nat.lt_succ_of_le (Nat.le_of_lt (ih hxt))
        | false =>
          simp only [hp, hq, Bool.false_eq_true, if_false]
          exact ih hxt

theorem lookupMap_cons_self (m : List (RDFNode × XML)) (k : RDFNode) (v : XML) :
    lookupMap ((k, v) :: m) k = some v := by
  simp [lookupMap, List.find?]

theorem value_mem_gNodes {g : Graph} {s p v : RDFNode}
    (h : value g s p = some v) : v ∈ gNodes g := by
  unfold value at h
  cases hf : List.find? (tripleMatches s p) g with
  | none => rw [hf] at h; cases h
  | some t =>
    rw [hf] at h
    have ht : t ∈ g := List.mem_of_find?_eq_some hf
    have : v = t.2.2 := by simpa using h.symm
    subst this
    exact List.mem_map.mpr ⟨t, ht, rfl⟩

theorem mem_objects_gNodes {g : Graph} {s p x : RDFNode}
    (h : x ∈ objects g s p) : x ∈ gNodes g := by
  unfold objects at h
  rcases List.mem_map.mp h with ⟨t, ht, rfl⟩
  exact List.mem_map.mpr ⟨t, List.mem_of_mem_filter ht, rfl⟩

theorem truthy_eq_some {o : Option RDFNode} (h : truthy o = true) :
    ∃ v, o = some v := by
  cases o with
  | none => cases h
  | some v => exact ⟨v, rfl⟩

theorem walkAux_mem_gNodes {g : Graph} :
    ∀ (f : Nat) (l x : RDFNode), x ∈ getRdfListItemsAux g f l → x ∈ gNodes g := by
  intro f
  induction f with
  | zero => intro l x hx; cases hx
  | succ f ih =>
    intro l x hx
    rw [getRdfListItemsAux] at hx
    by_cases hnil : l = rdfNil
    · simp [hnil] at hx
    · simp only [if_neg hnil] at hx
      have hhd : ∀ y, y ∈ (if truthy (value g l rdfFirst) then
          [(value g l rdfFirst).getD rdfNil] else []) → y ∈ gNodes g := by
        intro y hy
        by_cases ht : truthy (value g l rdfFirst) = true
        · rw [if_pos ht] at hy
          rcases truthy_eq_some ht with ⟨v, hv⟩
          simp [hv] at hy
          subst hy
          exact value_mem_gNodes hv
        · rw [if_neg ht] at hy; cases hy
      by_cases hr : truthy (value g l rdfRest) = true
      · rw [if_pos hr] at hx
        rcases List.mem_append.mp hx with hx | hx
        · exact hhd x hx
        · exact ih _ x hx
      · rw [if_neg hr] at hx
        exact hhd x hx

theorem walk_mem_gNodes {g : Graph} {l x : RDFNode}
    (h : x ∈ getRdfListItems g l) : x ∈ gNodes g :=
  walkAux_mem_gNodes _ _ _ h

theorem walkAux_length_le {g : Graph} :
    ∀ (f : Nat) (l : RDFNode), (getRdfListItemsAux g f l).length ≤ f := by
  intro f
  induction f with
  | zero => intro l; simp [getRdfListItemsAux]
  | succ f ih =>
    intro l
    rw [getRdfListItemsAux]
    by_cases hnil : l = rdfNil
    · simp [hnil]
    · simp only [if_neg hnil]
      have hhd : (if truthy (value g l rdfFirst) then
          [(value g l rdfFirst).getD rdfNil] else []).length ≤ 1 := by
        by_cases ht : truthy (value g l rdfFirst) = true
        · simp [ht]
        · simp [ht]
      by_cases hr : truthy (value g l rdfRest) = true
      · rw [if_pos hr]
        rw [List.length_append]
        have := ih ((value g l rdfRest).getD rdfNil)
        omega
      · rw [if_neg hr]
        omega

theorem walk_length_le {g : Graph} {l : RDFNode} :
    (getRdfListItems g l).length ≤ g.length + 1 :=
  walkAux_length_le _ _

theorem unprocessedCount_anti {g : Graph} {pr1 pr2 : List RDFNode}
    (h : pr1 ⊆ pr2) : unprocessedCount g pr2 ≤ unprocessedCount g pr1 := by
  unfold unprocessedCount
  refine filterLengthMono _ _ _ ?_
  intro a ha
  simp only [decide_eq_true_eq] at *
  intro hmem
  exact ha (h hmem)

theorem unprocessedCount_cons_le {g : Graph} {pr : List RDFNode} {x : RDFNode} :
    unprocessedCount g (x :: pr) ≤ unprocessedCount g pr :=
  unprocessedCount_anti (List.subset_cons_self x pr)

theorem unprocessedCount_cons_lt {g : Graph} {pr : List RDFNode} {x : RDFNode}
    (hx : x ∈ gNodes g) (hnp : x ∉ pr) :
    unprocessedCount g (x :: pr) < unprocessedCount g pr := by
  unfold unprocessedCount
  refine filterLengthLt _ _ _ x ?_ hx ?_ ?_
  · intro a ha
    simp only [decide_eq_true_eq] at *
    intro hmem
    exact ha (List.mem_cons_of_mem _ hmem)
  · simpa using hnp
  · simp

/-! Equation lemmas for the traversal functions. -/

theorem processNodeShape_mem {f : Nat} {g : Graph} {st : ConvState} {shape : RDFNode}
    (h : shape ∈ st.processed) :
    processNodeShape (Nat.succ f) g st shape = some (lookupMap st.nodeShapeMap shape, st) := by
  rw [processNodeShape]
  simp [h]

theorem processNodeShape_no_base {f : Nat} {g : Graph} {st : ConvState} {shape : RDFNode}
    (h : shape ∉ st.processed) (hb : (objects g shape shNode).head? = none) :
    processNodeShape (Nat.succ f) g st shape =
      nodeShapeAfterBase f g { st with processed := shape :: st.processed } shape none := by
  rw [processNodeShape]
  simp [h, hb]

theorem processNodeShape_with_base {f : Nat} {g : Graph} {st : ConvState}
    {shape b : RDFNode}
    (h : shape ∉ st.processed) (hb : (objects g shape shNode).head? = some b) :
    processNodeShape (Nat.succ f) g st shape =
      (processNodeShape f g { st with processed := shape :: st.processed } b).bind
        (fun q => nodeShapeAfterBase f g q.2 shape (q.1.map (fun _ => getShapeName g b))) := by
  rw [processNodeShape]
  simp [h, hb]

theorem nodeShapeAfterBase_no_xone {f : Nat} {g : Graph} {st2 : ConvState}
    {shape : RDFNode} {bn : Option String}
    (hx : (objects g shape shXone).head? = none) :
    nodeShapeAfterBase (Nat.succ f) g st2 shape bn =
      nodeShapeAfterXone f g st2 shape bn none := by
  rw [nodeShapeAfterBase]
  simp [hx]

theorem nodeShapeAfterBase_with_xone {f : Nat} {g : Graph} {st2 : ConvState}
    {shape l : RDFNode} {bn : Option String}
    (hx : (objects g shape shXone).head? = some l) :
    nodeShapeAfterBase (Nat.succ f) g st2 shape bn =
      (processChoiceConstraint f g st2 l true).bind
        (fun p => nodeShapeAfterXone f g p.2 shape bn (some p.1)) := by
  rw [nodeShapeAfterBase]
  simp [hx]

theorem nodeShapeAfterXone_no_or {f : Nat} {g : Graph} {st3 : ConvState}
    {shape : RDFNode} {bn : Option String} {xc : Option XML}
    (ho : (objects g shape shOr).head? = none) :
    nodeShapeAfterXone (Nat.succ f) g st3 shape bn xc =
      some (nodeShapeFinish g shape bn xc none st3) := by
  rw [nodeShapeAfterXone]
  simp [ho]

theorem nodeShapeAfterXone_with_or {f : Nat} {g : Graph} {st3 : ConvState}
    {shape l : RDFNode} {bn : Option String} {xc : Option XML}
    (ho : (objects g shape shOr).head? = some l) :
    nodeShapeAfterXone (Nat.succ f) g st3 shape bn xc =
      (processChoiceConstraint f g st3 l false).map
        (fun p => nodeShapeFinish g shape bn xc (some p.1) p.2) := by
  rw [nodeShapeAfterXone]
  simp [ho]

theorem processChoiceConstraint_xone {f : Nat} {g : Graph} {st : ConvState} {l : RDFNode} :
    processChoiceConstraint (Nat.succ f) g st l true =
      (processRdfListItems f g st (getRdfListItems g l)).map
        (fun p => (XML.elem "choice" [] p.1, p.2)) := by
  rw [processChoiceConstraint]
  simp

theorem processChoiceConstraint_or_simple {f : Nat} {g : Graph} {st : ConvState} {l : RDFNode}
    (h : areSimpleTypeConstraints g (getRdfListItems g l) = true) :
    processChoiceConstraint (Nat.succ f) g st l false =
      some (XML.elem "simpleType" []
        [XML.elem "union" [("memberTypes", unionMemberTypes g (getRdfListItems g l))] []], st) := by
  rw [processChoiceConstraint]
  simp [h]

theorem processChoiceConstraint_or_complex {f : Nat} {g : Graph} {st : ConvState} {l : RDFNode}
    (h : areSimpleTypeConstraints g (getRdfListItems g l) = false) :
    processChoiceConstraint (Nat.succ f) g st l false =
      (processRdfListItems f g st (getRdfListItems g l)).map
        (fun p => (XML.elem "choice" [] p.1, p.2)) := by
  rw [processChoiceConstraint]
  simp [h]

theorem processRdfListItems_nil {f : Nat} {g : Graph} {st : ConvState} :
    processRdfListItems (Nat.succ f) g st [] = some ([], st) := by
  rw [processRdfListItems]

theorem processRdfListItems_cons_prop {f : Nat} {g : Graph} {st : ConvState}
    {i : RDFNode} {is : List RDFNode}
    (h : hasTriple g i rdfType shPropertyShape = true) :
    processRdfListItems (Nat.succ f) g st (i :: is) =
      (processRdfListItems f g (processPropertyShape g st i).2 is).map
        (fun p => ((processPropertyShape g st i).1.toList ++ p.1, p.2)) := by
  rw [processRdfListItems]
  simp [h]

theorem processRdfListItems_cons_node {f : Nat} {g : Graph} {st : ConvState}
    {i : RDFNode} {is : List RDFNode}
    (h : hasTriple g i rdfType shPropertyShape = false) :
    processRdfListItems (Nat.succ f) g st (i :: is) =
      (processNodeShape f g st i).bind (fun q =>
        (processRdfListItems f g q.2 is).map (fun p =>
          ((if q.1.isSome then [XML.elem "element" [("ref", getShapeName g i)] []] else [])
            ++ p.1, p.2))) := by
  rw [processRdfListItems]
  simp [h]

/-! State monotonicity: the processed set only grows and the root child
list only receives appends, across every lowering function. -/

theorem processPropertyShape_state (g : Graph) (st : ConvState) (x : RDFNode) :
    st.processed ⊆ (processPropertyShape g st x).2.processed ∧
    (processPropertyShape g st x).2.root = st.root := by
  unfold processPropertyShape
  by_cases hmem : x ∈ st.processed
  · simp only [if_pos hmem]
    exact ⟨List.Subset.refl _, by trivial⟩
  · simp only [if_neg hmem]
    cases hp : value g x shPath with
    | none =>
      simp only [hp]
      exact ⟨List.subset_cons_self _ _, by trivial⟩
    | some w =>
      simp only [hp]
      split
      · exact ⟨List.subset_cons_self _ _, by trivial⟩
      · exact ⟨List.subset_cons_self _ _, by trivial⟩

theorem lowerProps_state (g : Graph) :
    ∀ (ps : List RDFNode) (st : ConvState),
      st.processed ⊆ (lowerProps g ps st).2.processed ∧
      (lowerProps g ps st).2.root = st.root := by
  intro ps
  induction ps with
  | nil => intro st; exact ⟨List.Subset.refl _, rfl⟩
  | cons p pt ih =>
    intro st
    have h1 := processPropertyShape_state g st p
    have h2 := ih (processPropertyShape g st p).2
    rw [lowerProps]
    exact ⟨List.Subset.trans h1.1 h2.1, h2.2.trans h1.2⟩

theorem nodeShapeFinish_state (g : Graph) (shape : RDFNode) (bn : Option String)
    (xc oc : Option XML) (st4 : ConvState) :
    st4.processed ⊆ (nodeShapeFinish g shape bn xc oc st4).2.processed ∧
    ∃ t, (nodeShapeFinish g shape bn xc oc st4).2.root = st4.root ++ t := by
  have h := lowerProps_state g (objects g shape shProperty) st4
  constructor
  · exact h.1
  · refine ⟨nodeShapeTElems g shape bn
      (nodeShapeCT g shape bn xc oc (lowerProps g (objects g shape shProperty) st4).1) ++
      [nodeShapeCT g shape bn xc oc (lowerProps g (objects g shape shProperty) st4).1], ?_⟩
    show (lowerProps g (objects g shape shProperty) st4).2.root ++ _ ++ _ = _
    rw [h.2, List.append_assoc]

theorem monoPack : ∀ f : Nat,
    (∀ g st shape p, processNodeShape f g st shape = some p →
       st.processed ⊆ p.2.processed ∧ ∃ t, p.2.root = st.root ++ t) ∧
    (∀ g st shape bn p, nodeShapeAfterBase f g st shape bn = some p →
       st.processed ⊆ p.2.processed ∧ ∃ t, p.2.root = st.root ++ t) ∧
    (∀ g st shape bn xc p, nodeShapeAfterXone f g st shape bn xc = some p →
       st.processed ⊆ p.2.processed ∧ ∃ t, p.2.root = st.root ++ t) ∧
    (∀ g st l b p, processChoiceConstraint f g st l b = some p →
       st.processed ⊆ p.2.processed ∧ ∃ t, p.2.root = st.root ++ t) ∧
    (∀ g st its p, processRdfListItems f g st its = some p →
       st.processed ⊆ p.2.processed ∧ ∃ t, p.2.root = st.root ++ t) := by
  intro f
  induction f with
  | zero =>
    refine ⟨?_, ?_, ?_, ?_, ?_⟩
    · intro g st shape p h; simp [processNodeShape] at h
    · intro g st shape bn p h; simp [nodeShapeAfterBase] at h
    · intro g st shape bn xc p h; simp [nodeShapeAfterXone] at h
    · intro g st l b p h; simp [processChoiceConstraint] at h
    · intro g st its p h; simp [processRdfListItems] at h
  | succ f ih =>
    obtain ⟨ihN, ihB, ihX, ihC, ihA⟩ := ih
    refine ⟨?_, ?_, ?_, ?_, ?_⟩
    · intro g st shape p h
      by_cases hmem : shape ∈ st.processed
      · rw [processNodeShape_mem hmem] at h
        injection h with h
        subst h
        exact ⟨List.Subset.refl _, ⟨[], (List.append_nil _).symm⟩⟩
      · cases hb : (objects g shape shNode).head? with
        | none =>
          rw [processNodeShape_no_base hmem hb] at h
          have h2 := ihB _ _ _ _ _ h
          exact ⟨List.Subset.trans (List.subset_cons_self _ _) h2.1, h2.2⟩
        | some b =>
          rw [processNodeShape_with_base hmem hb] at h
          cases hq : processNodeShape f g { st with processed := shape :: st.processed } b with
          | none => rw [hq] at h; cases h
          | some q =>
            rw [hq] at h
            simp only [Option.some_bind] at h
            have h1 := ihN _ _ _ _ hq
            have h2 := ihB _ _ _ _ _ h
            refine ⟨List.Subset.trans (List.subset_cons_self _ _)
              (List.Subset.trans h1.1 h2.1), ?_⟩
            obtain ⟨t1, ht1⟩ := h1.2
            obtain ⟨t2, ht2⟩ := h2.2
            exact ⟨t1 ++ t2, by rw [ht2, ht1]; simp⟩
    · intro g st shape bn p h
      cases hx : (objects g shape shXone).head? with
      | none =>
        rw [nodeShapeAfterBase_no_xone hx] at h
        exact ihX _ _ _ _ _ _ h
      | some l =>
        rw [nodeShapeAfterBase_with_xone hx] at h
        cases hc : processChoiceConstraint f g st l true with
        | none => rw [hc] at h; cases h
        | some c =>
          rw [hc] at h
          simp only [Option.some_bind] at h
          have h1 := ihC _ _ _ _ _ hc
          have h2 := ihX _ _ _ _ _ _ h
          refine ⟨List.Subset.trans h1.1 h2.1, ?_⟩
          obtain ⟨t1, ht1⟩ := h1.2
          obtain ⟨t2, ht2⟩ := h2.2
          exact ⟨t1 ++ t2, by rw [ht2, ht1]; simp⟩
    · intro g st shape bn xc p h
      cases ho : (objects g shape shOr).head? with
      | none =>
        rw [nodeShapeAfterXone_no_or ho] at h
        injection h with h
        subst h
        exact nodeShapeFinish_state g shape bn xc none st
      | some l =>
        rw [nodeShapeAfterXone_with_or ho] at h
        cases hc : processChoiceConstraint f g st l false with
        | none => rw [hc] at h; cases h
        | some c =>
          rw [hc] at h
          simp only [Option.map_some'] at h
          injection h with h
          subst h
          have h1 := ihC _ _ _ _ _ hc
          have h2 := nodeShapeFinish_state g shape bn xc (some c.1) c.2
          refine ⟨List.Subset.trans h1.1 h2.1, ?_⟩
          obtain ⟨t1, ht1⟩ := h1.2
          obtain ⟨t2, ht2⟩ := h2.2
          exact ⟨t1 ++ t2, by rw [ht2, ht1]; simp⟩
    · intro g st l b p h
      cases b with
      | true =>
        rw [processChoiceConstraint_xone] at h
        cases hr : processRdfListItems f g st (getRdfListItems g l) with
        | none => rw [hr] at h; cases h
        | some r =>
          rw [hr] at h
          simp only [Option.map_some'] at h
          injection h with h
          subst h
          exact ihA _ _ _ _ hr
      | false =>
        by_cases hs : areSimpleTypeConstraints g (getRdfListItems g l) = true
        · rw [processChoiceConstraint_or_simple hs] at h
          injection h with h
          subst h
          exact ⟨List.Subset.refl _, ⟨[], (List.append_nil _).symm⟩⟩
        · rw [processChoiceConstraint_or_complex (Bool.eq_false_iff.mpr hs)] at h
          cases hr : processRdfListItems f g st (getRdfListItems g l) with
          | none => rw [hr] at h; cases h
          | some r =>
            rw [hr] at h
            simp only [Option.map_some'] at h
            injection h with h
            subst h
            exact ihA _ _ _ _ hr
    · intro g st its p h
      cases its with
      | nil =>
        rw [processRdfListItems_nil] at h
        injection h with h
        subst h
        exact ⟨List.Subset.refl _, ⟨[], (List.append_nil _).symm⟩⟩
      | cons i is =>
        by_cases hpt : hasTriple g i rdfType shPropertyShape = true
        · rw [processRdfListItems_cons_prop hpt] at h
          cases hr : processRdfListItems f g (processPropertyShape g st i).2 is with
          | none => rw [hr] at h; cases h
          | some r =>
            rw [hr] at h
            simp only [Option.map_some'] at h
            injection h with h
            subst h
            have h1 := processPropertyShape_state g st i
            have h2 := ihA _ _ _ _ hr
            refine ⟨List.Subset.trans h1.1 h2.1, ?_⟩
            obtain ⟨t2, ht2⟩ := h2.2
            exact ⟨t2, by rw [ht2, h1.2]⟩
        · rw [processRdfListItems_cons_node (Bool.eq_false_iff.mpr hpt)] at h
          cases hq : processNodeShape f g st i with
          | none => rw [hq] at h; cases h
          | some q =>
            rw [hq] at h
            simp only [Option.some_bind] at h
            cases hr : processRdfListItems f g q.2 is with
            | none => rw [hr] at h; cases h
            | some r =>
              rw [hr] at h
              simp only [Option.map_some'] at h
              injection h with h
              subst h
              have h1 := ihN _ _ _ _ hq
              have h2 := ihA _ _ _ _ hr
              refine ⟨List.Subset.trans h1.1 h2.1, ?_⟩
              obtain ⟨t1, ht1⟩ := h1.2
              obtain ⟨t2, ht2⟩ := h2.2
              exact ⟨t1 ++ t2, by rw [ht2, ht1]; simp⟩

theorem headMem {α : Type} {l : List α} {a : α} (h : l.head? = some a) : a ∈ l := by
  cases l with
  | nil => cases h
  | cons b t => simp at h; simp [h]

theorem mulCount_le (C : Nat) {g : Graph} {pr1 pr2 : List RDFNode} (h : pr1 ⊆ pr2) :
    C * unprocessedCount g pr2 ≤ C * unprocessedCount g pr1 :=
  Nat.mul_le_mul_left C (unprocessedCount_anti h)

theorem fuelPack : ∀ f : Nat,
    (∀ g st shape, 1 ≤ f →
       (shape ∈ st.processed ∨
        (g.length + 7) * unprocessedCount g (shape :: st.processed) + (g.length + 7) ≤ f) →
       processNodeShape f g st shape ≠ none) ∧
    (∀ g st shape bn,
       (g.length + 7) * unprocessedCount g st.processed + (g.length + 6) ≤ f →
       nodeShapeAfterBase f g st shape bn ≠ none) ∧
    (∀ g st shape bn xc,
       (g.length + 7) * unprocessedCount g st.processed + (g.length + 5) ≤ f →
       nodeShapeAfterXone f g st shape bn xc ≠ none) ∧
    (∀ g st l b,
       (g.length + 7) * unprocessedCount g st.processed + (g.length + 4) ≤ f →
       processChoiceConstraint f g st l b ≠ none) ∧
    (∀ g st its,
       its.length + (g.length + 7) * unprocessedCount g st.processed + 2 ≤ f →
       (∀ i ∈ its, i ∈ gNodes g) →
       processRdfListItems f g st its ≠ none) := by
  intro f
  induction f with
  | zero =>
    refine ⟨?_, ?_, ?_, ?_, ?_⟩
    · intro g st shape h1 _; omega
    · intro g st shape bn h1; omega
    · intro g st shape bn xc h1; omega
    · intro g st l b h1; omega
    · intro g st its h1 _; omega
  | succ f ih =>
    obtain ⟨ihN, ihB, ihX, ihC, ihA⟩ := ih
    refine ⟨?_, ?_, ?_, ?_, ?_⟩
    · intro g st shape _ h2
      by_cases hmem : shape ∈ st.processed
      · rw [processNodeShape_mem hmem]; simp
      · have h2 := h2.resolve_left hmem
        cases hb : (objects g shape shNode).head? with
        | none =>
          rw [processNodeShape_no_base hmem hb]
          apply ihB
          show (g.length + 7) * unprocessedCount g (shape :: st.processed) + (g.length + 6) ≤ f
          omega
        | some b =>
          rw [processNodeShape_with_base hmem hb]
          have hbg : b ∈ gNodes g := mem_objects_gNodes (headMem hb)
          have hN : processNodeShape f g { st with processed := shape :: st.processed } b ≠ none := by
            apply ihN
            · omega
            · by_cases hbm : b ∈ shape :: st.processed
              · exact Or.inl hbm
              · refine Or.inr ?_
                show (g.length + 7) * unprocessedCount g (b :: shape :: st.processed) +
                  (g.length + 7) ≤ f
                have hlt := unprocessedCount_cons_lt (g := g) hbg hbm
                have hmul : (g.length + 7) * unprocessedCount g (b :: shape :: st.processed) + (g.length + 7) ≤
                    (g.length + 7) * unprocessedCount g (shape :: st.processed) := by
                  have : unprocessedCount g (b :: shape :: st.processed) + 1 ≤
                      unprocessedCount g (shape :: st.processed) := hlt
                  calc (g.length + 7) * unprocessedCount g (b :: shape :: st.processed) + (g.length + 7)
                      = (g.length + 7) * (unprocessedCount g (b :: shape :: st.processed) + 1) := by ring
                    _ ≤ (g.length + 7) * unprocessedCount g (shape :: st.processed) :=
                        Nat.mul_le_mul_left _ this
                omega
          cases hq : processNodeShape f g { st with processed := shape :: st.processed } b with
          | none => exact absurd hq hN
          | some q =>
            simp only [hq, Option.some_bind]
            apply ihB
            have hmono := ((monoPack f).1 _ _ _ _ hq).1
            have hle : (g.length + 7) * unprocessedCount g q.2.processed ≤
                (g.length + 7) * unprocessedCount g (shape :: st.processed) :=
              mulCount_le _ hmono
            omega
    · intro g st shape bn h1
      cases hx : (objects g shape shXone).head? with
      | none =>
        rw [nodeShapeAfterBase_no_xone hx]
        apply ihX
        omega
      | some l =>
        rw [nodeShapeAfterBase_with_xone hx]
        have hC : processChoiceConstraint f g st l true ≠ none := by
          apply ihC
          omega
        cases hc : processChoiceConstraint f g st l true with
        | none => exact absurd hc hC
        | some c =>
          simp only [hc, Option.some_bind]
          apply ihX
          have hmono := ((monoPack f).2.2.2.1 _ _ _ _ _ hc).1
          have hle : (g.length + 7) * unprocessedCount g c.2.processed ≤
              (g.length + 7) * unprocessedCount g st.processed :=
            mulCount_le _ hmono
          omega
    · intro g st shape bn xc h1
      cases ho : (objects g shape shOr).head? with
      | none => rw [nodeShapeAfterXone_no_or ho]; simp
      | some l =>
        rw [nodeShapeAfterXone_with_or ho]
        have hC : processChoiceConstraint f g st l false ≠ none := by
          apply ihC
          omega
        cases hc : processChoiceConstraint f g st l false with
        | none => exact absurd hc hC
        | some c => simp [hc]
    · intro g st l b h1
      cases b with
      | true =>
        rw [processChoiceConstraint_xone]
        have hA : processRdfListItems f g st (getRdfListItems g l) ≠ none := by
          apply ihA
          · have := walk_length_le (g := g) (l := l)
            omega
          · intro i hi
            exact walk_mem_gNodes hi
        cases hr : processRdfListItems f g st (getRdfListItems g l) with
        | none => exact absurd hr hA
        | some r => simp [hr]
      | false =>
        by_cases hs : areSimpleTypeConstraints g (getRdfListItems g l) = true
        · rw [processChoiceConstraint_or_simple hs]; simp
        · rw [processChoiceConstraint_or_complex (Bool.eq_false_iff.mpr hs)]
          have hA : processRdfListItems f g st (getRdfListItems g l) ≠ none := by
            apply ihA
            · have := walk_length_le (g := g) (l := l)
              omega
            · intro i hi
              exact walk_mem_gNodes hi
          cases hr : processRdfListItems f g st (getRdfListItems g l) with
          | none => exact absurd hr hA
          | some r => simp [hr]
    · intro g st its h1 hmemg
      cases its with
      | nil => rw [processRdfListItems_nil]; simp
      | cons i is =>
        by_cases hpt : hasTriple g i rdfType shPropertyShape = true
        · rw [processRdfListItems_cons_prop hpt]
          have hA : processRdfListItems f g (processPropertyShape g st i).2 is ≠ none := by
            apply ihA
            · have hmono := (processPropertyShape_state g st i).1
              have hle : (g.length + 7) * unprocessedCount g (processPropertyShape g st i).2.processed ≤
                  (g.length + 7) * unprocessedCount g st.processed :=
                mulCount_le _ hmono
              simp only [List.length_cons] at h1
              omega
            · intro j hj
              exact hmemg j (List.mem_cons_of_mem _ hj)
          cases hr : processRdfListItems f g (processPropertyShape g st i).2 is with
          | none => exact absurd hr hA
          | some r => simp [hr]
        · rw [processRdfListItems_cons_node (Bool.eq_false_iff.mpr hpt)]
          have hig : i ∈ gNodes g := hmemg i (List.mem_cons_self i is)
          have hN : processNodeShape f g st i ≠ none := by
            apply ihN
            · simp only [List.length_cons] at h1
              omega
            · by_cases him : i ∈ st.processed
              · exact Or.inl him
              · refine Or.inr ?_
                have hlt := unprocessedCount_cons_lt (g := g) hig him
                have : unprocessedCount g (i :: st.processed) + 1 ≤
                    unprocessedCount g st.processed := hlt
                have hmul : (g.length + 7) * unprocessedCount g (i :: st.processed) + (g.length + 7) ≤
                    (g.length + 7) * unprocessedCount g st.processed := by
                  calc (g.length + 7) * unprocessedCount g (i :: st.processed) + (g.length + 7)
                      = (g.length + 7) * (unprocessedCount g (i :: st.processed) + 1) := by ring
                    _ ≤ (g.length + 7) * unprocessedCount g st.processed :=
                        Nat.mul_le_mul_left _ this
                simp only [List.length_cons] at h1
                omega
          cases hq : processNodeShape f g st i with
          | none => exact absurd hq hN
          | some q =>
            simp only [hq, Option.some_bind]
            have hA : processRdfListItems f g q.2 is ≠ none := by
              apply ihA
              · have hmono := ((monoPack f).1 _ _ _ _ hq).1
                have hle : (g.length + 7) * unprocessedCount g q.2.processed ≤
                    (g.length + 7) * unprocessedCount g st.processed :=
                  mulCount_le _ hmono
                simp only [List.length_cons] at h1
                omega
              · intro j hj
                exact hmemg j (List.mem_cons_of_mem _ hj)
            cases hr : processRdfListItems f g q.2 is with
            | none => exact absurd hr hA
            | some r => simp [hr]

/-! Structure of an uncached node-shape lowering: every successful run
ends in the pure assembly tail, over a state reached by monotone steps. -/

theorem nodeShapeFinish_eq (g : Graph) (shape : RDFNode) (bn : Option String)
    (xc oc : Option XML) (st4 : ConvState) :
    nodeShapeFinish g shape bn xc oc st4 =
      (some (nodeShapeCT g shape bn xc oc (lowerProps g (objects g shape shProperty) st4).1),
       { processed := (lowerProps g (objects g shape shProperty) st4).2.processed,
         nodeShapeMap := (shape,
             nodeShapeCT g shape bn xc oc (lowerProps g (objects g shape shProperty) st4).1) ::
           (lowerProps g (objects g shape shProperty) st4).2.nodeShapeMap,
         propertyShapeMap := (lowerProps g (objects g shape shProperty) st4).2.propertyShapeMap,
         root := (lowerProps g (objects g shape shProperty) st4).2.root ++
           nodeShapeTElems g shape bn
             (nodeShapeCT g shape bn xc oc (lowerProps g (objects g shape shProperty) st4).1) ++
           [nodeShapeCT g shape bn xc oc (lowerProps g (objects g shape shProperty) st4).1] }) :=
  rfl

theorem nodeShapeAfterXone_shape (fx : Nat) (g : Graph) (st3 : ConvState)
    (shape : RDFNode) (bn : Option String) (xc : Option XML) (p : Option XML × ConvState)
    (h : nodeShapeAfterXone fx g st3 shape bn xc = some p) :
    ∃ oc st4, st3.processed ⊆ st4.processed ∧ (∃ t, st4.root = st3.root ++ t) ∧
      p = nodeShapeFinish g shape bn xc oc st4 := by
  cases fx with
  | zero => simp [nodeShapeAfterXone] at h
  | succ f =>
    cases ho : (objects g shape shOr).head? with
    | none =>
      rw [nodeShapeAfterXone_no_or ho] at h
      injection h with h
      exact ⟨none, st3, List.Subset.refl _, ⟨[], (List.append_nil _).symm⟩, h.symm⟩
    | some l =>
      rw [nodeShapeAfterXone_with_or ho] at h
      cases hc : processChoiceConstraint f g st3 l false with
      | none => rw [hc] at h; cases h
      | some c =>
        rw [hc] at h
        simp only [Option.map_some'] at h
        injection h with h
        have hm := (monoPack f).2.2.2.1 _ _ _ _ _ hc
        exact ⟨some c.1, c.2, hm.1, hm.2, h.symm⟩

theorem nodeShapeAfterBase_shape (fb : Nat) (g : Graph) (st2 : ConvState)
    (shape : RDFNode) (bn : Option String) (p : Option XML × ConvState)
    (h : nodeShapeAfterBase fb g st2 shape bn = some p) :
    ∃ xc oc st4, st2.processed ⊆ st4.processed ∧ (∃ t, st4.root = st2.root ++ t) ∧
      p = nodeShapeFinish g shape bn xc oc st4 := by
  cases fb with
  | zero => simp [nodeShapeAfterBase] at h
  | succ f =>
    cases hx : (objects g shape shXone).head? with
    | none =>
      rw [nodeShapeAfterBase_no_xone hx] at h
      obtain ⟨oc, st4, hs, hr, hp⟩ := nodeShapeAfterXone_shape f g st2 shape bn none p h
      exact ⟨none, oc, st4, hs, hr, hp⟩
    | some l =>
      rw [nodeShapeAfterBase_with_xone hx] at h
      cases hc : processChoiceConstraint f g st2 l true with
      | none => rw [hc] at h; cases h
      | some c =>
        rw [hc] at h
        simp only [Option.some_bind] at h
        obtain ⟨oc, st4, hs, ⟨t2, ht2⟩, hp⟩ :=
          nodeShapeAfterXone_shape f g c.2 shape bn (some c.1) p h
        have hm := (monoPack f).2.2.2.1 _ _ _ _ _ hc
        obtain ⟨t1, ht1⟩ := hm.2
        refine ⟨some c.1, oc, st4, List.Subset.trans hm.1 hs, ⟨t1 ++ t2, ?_⟩, hp⟩
        rw [ht2, ht1, List.append_assoc]

theorem processNodeShape_uncached_shape (f : Nat) (g : Graph) (st : ConvState)
    (shape : RDFNode) (r : Option XML) (st' : ConvState)
    (hmem : shape ∉ st.processed)
    (h : processNodeShape (Nat.succ f) g st shape = some (r, st')) :
    ∃ bn xc oc st4, (shape :: st.processed) ⊆ st4.processed ∧
      (∃ t, st4.root = st.root ++ t) ∧
      (r, st') = nodeShapeFinish g shape bn xc oc st4 := by
  cases hb : (objects g shape shNode).head? with
  | none =>
    rw [processNodeShape_no_base hmem hb] at h
    obtain ⟨xc, oc, st4, hs, hr, hp⟩ :=
      nodeShapeAfterBase_shape f g { st with processed := shape :: st.processed }
        shape none (r, st') h
    exact ⟨none, xc, oc, st4, hs, hr, hp⟩
  | some b =>
    rw [processNodeShape_with_base hmem hb] at h
    cases hq : processNodeShape f g { st with processed := shape :: st.processed } b with
    | none => rw [hq] at h; cases h
    | some q =>
      rw [hq] at h
      simp only [Option.some_bind] at h
      obtain ⟨xc, oc, st4, hs, ⟨t2, ht2⟩, hp⟩ :=
        nodeShapeAfterBase_shape f g q.2 shape (q.1.map (fun _ => getShapeName g b))
          (r, st') h
      have hm := (monoPack f).1 _ _ _ _ hq
      obtain ⟨t1, ht1⟩ := hm.2
      refine ⟨q.1.map (fun _ => getShapeName g b), xc, oc, st4,
        List.Subset.trans hm.1 hs, ⟨t1 ++ t2, ?_⟩, hp⟩
      rw [ht2, ht1, List.append_assoc]

theorem nodeShapeCT_tag (g : Graph) (shape : RDFNode) (bn : Option String)
    (xc oc : Option XML) (results : List XML) :
    (nodeShapeCT g shape bn xc oc results).tag = "complexType" := by
  cases bn <;> rfl

theorem targetElem_name (nm ty : String) :
    XML.getAttr (XML.elem "element" [("name", nm), ("type", ty)] []) "name" = some nm := rfl

theorem nodeShapeTElems_length (g : Graph) (shape : RDFNode) (bn : Option String)
    (ct : XML) :
    (nodeShapeTElems g shape bn ct).length = (objects g shape shTargetClass).length := by
  unfold nodeShapeTElems
  exact List.length_map _ _

theorem nodeShapeTElems_mem (g : Graph) (shape : RDFNode) (bn : Option String)
    (ct e : XML) (he : e ∈ nodeShapeTElems g shape bn ct) :
    e.tag = "element" ∧ e.getAttr "name" = some (getShapeName g shape) := by
  unfold nodeShapeTElems at he
  rcases List.mem_map.mp he with ⟨a, _, rfl⟩
  exact ⟨rfl, targetElem_name _ _⟩

/-! The claims. -/

/-- C1: the claim says a property shape whose only facet constraints
are numeric bounds still gets those bound facets emitted.  The source
contradicts this: its early return tests only pattern and length facets
(the needs_restriction flag computed from the numeric bounds is dead),
so a shape carrying only sh:minInclusive produces no restriction and no
facet at all.  This theorem evaluates the code at that failing input:
the element is returned unchanged although the bound is present. -/
theorem numeric_only_bounds_dropped :
    processFacetConstraints csG1 csP csEl1 = csEl1 ∧
    value csG1 csP shMinInclusive = some (RDFNode.lit "0") :=
  ⟨rfl, rfl⟩

/-- C2 counterexample: with two node shapes both carrying a target
class, the finished root child list interleaves elements and complex
types (element, complexType, element, complexType), so the complex type
of the first shape precedes the top-level element of the second —
refuting the claim that all top-level elements precede all complex type
definitions. -/
theorem root_order_counterexample :
    (runConvert 10 csG2).map (fun st => st.root.map XML.tag) =
      some ["element", "complexType", "element", "complexType"] ∧
    ("complexType" : String) ≠ "element" :=
  ⟨rfl, by decide⟩

/-- C2 amended: each uncached node-shape lowering appends, at the end of
the then-current root child list, exactly its target-class elements
immediately followed by its own complex type; the root grows by appends
only.  (Complex types of shapes lowered earlier may therefore precede
top-level elements of shapes lowered later.) -/
theorem node_shape_block_order (f : Nat) (g : Graph) (st : ConvState)
    (shape : RDFNode) (r : Option XML) (st' : ConvState)
    (hmem : shape ∉ st.processed)
    (h : processNodeShape (Nat.succ f) g st shape = some (r, st')) :
    ∃ mid tEls ct,
      r = some ct ∧
      ct.tag = "complexType" ∧
      st'.root = mid ++ tEls ++ [ct] ∧
      (∃ t, mid = st.root ++ t) ∧
      tEls.length = (objects g shape shTargetClass).length ∧
      (∀ e ∈ tEls, e.tag = "element" ∧ e.getAttr "name" = some (getShapeName g shape)) := by
  obtain ⟨bn, xc, oc, st4, _, ⟨t, ht⟩, hp⟩ :=
    processNodeShape_uncached_shape f g st shape r st' hmem h
  rw [nodeShapeFinish_eq] at hp
  have hr : r = some (nodeShapeCT g shape bn xc oc
      (lowerProps g (objects g shape shProperty) st4).1) := congrArg Prod.fst hp
  have hst : st' = _ := congrArg Prod.snd hp
  refine ⟨(lowerProps g (objects g shape shProperty) st4).2.root,
    nodeShapeTElems g shape bn
      (nodeShapeCT g shape bn xc oc (lowerProps g (objects g shape shProperty) st4).1),
    nodeShapeCT g shape bn xc oc (lowerProps g (objects g shape shProperty) st4).1,
    hr, nodeShapeCT_tag _ _ _ _ _ _, ?_, ?_, nodeShapeTElems_length _ _ _ _, ?_⟩
  · rw [hst]
  · refine ⟨t, ?_⟩
    rw [(lowerProps_state g (objects g shape shProperty) st4).2, ht]
  · intro e he
    exact nodeShapeTElems_mem _ _ _ _ _ he

/-- C2 amended witness: the single node shape of the witness graph
appends its (empty) target-element block immediately before its own
complex type. -/
theorem node_shape_block_order_witness :
    ∃ mid tEls ct,
      (some csCTW : Option XML) = some ct ∧
      ct.tag = "complexType" ∧
      csStW.root = mid ++ tEls ++ [ct] ∧
      (∃ t, mid = initState.root ++ t) ∧
      tEls.length = (objects csGW csA shTargetClass).length ∧
      (∀ e ∈ tEls, e.tag = "element" ∧ e.getAttr "name" = some (getShapeName csGW csA)) :=
  node_shape_block_order 2 csGW initState csA (some csCTW) csStW
    (by simp [initState]) rfl

/-- C3 counterexample: on a self-referential base, the outer (first)
lowering of the shape yields a node, but the re-entrant second lowering
of the same identity — called with the processed set already holding the
shape and the cache still empty — yields the Python value None, not the
identical node object; the claim fails in exactly the re-entrant case it
asserts.  (The node is still appended exactly once: the root has one
child.) -/
theorem reentrant_lowering_counterexample :
    (processNodeShape 9 csG3 initState csA).map (fun p => p.1.isSome) = some true ∧
    (processNodeShape 8 csG3 ⟨[csA], [], [], []⟩ csA).map (fun p => p.1.isSome) =
      some false ∧
    (processNodeShape 9 csG3 initState csA).map (fun p => p.2.root.length) = some 1 :=
  ⟨rfl, rfl, rfl⟩

/-- C3 amended: once the first lowering of a shape identity has
completed, lowering it again returns the identical cached node and
leaves the state unchanged (so the node is appended exactly once); a
re-entrant call during the first lowering instead returns none. -/
theorem second_lowering_cached (f f2 : Nat) (g : Graph) (st : ConvState)
    (shape : RDFNode) (r : Option XML) (st' : ConvState)
    (hmem : shape ∉ st.processed)
    (h : processNodeShape (Nat.succ f) g st shape = some (r, st')) :
    ∃ ct, r = some ct ∧
      processNodeShape (Nat.succ f2) g st' shape = some (some ct, st') := by
  obtain ⟨bn, xc, oc, st4, hsub, _, hp⟩ :=
    processNodeShape_uncached_shape f g st shape r st' hmem h
  rw [nodeShapeFinish_eq] at hp
  have hr : r = some (nodeShapeCT g shape bn xc oc
      (lowerProps g (objects g shape shProperty) st4).1) := congrArg Prod.fst hp
  have hst : st' = _ := congrArg Prod.snd hp
  refine ⟨nodeShapeCT g shape bn xc oc (lowerProps g (objects g shape shProperty) st4).1,
    hr, ?_⟩
  have hmem' : shape ∈ st'.processed := by
    rw [hst]
    exact (lowerProps_state g (objects g shape shProperty) st4).1
      (hsub (List.mem_cons_self _ _))
  rw [processNodeShape_mem hmem']
  have hlook : lookupMap st'.nodeShapeMap shape =
      some (nodeShapeCT g shape bn xc oc (lowerProps g (objects g shape shProperty) st4).1) := by
    rw [hst]
    exact lookupMap_cons_self _ _ _
  rw [hlook]

/-- C3 amended witness: relowering the already-lowered witness shape
returns the cached complex type and the unchanged state. -/
theorem second_lowering_cached_witness :
    ∃ ct, (some csCTW : Option XML) = some ct ∧
      processNodeShape 1 csGW csStW csA = some (some ct, csStW) :=
  second_lowering_cached 2 0 csGW initState csA (some csCTW) csStW
    (by simp [initState]) rfl

/-- C4: node-shape lowering terminates on every shape graph, cyclic
base chains included: with fuel at least a bound computed from the
graph size and the count of not-yet-processed graph nodes, the
traversal never exhausts its fuel, because entering any shape first
adds it to the processed set and a revisited identity returns at once
from the cache check. -/
theorem processNodeShape_terminates (g : Graph) (st : ConvState) (shape : RDFNode)
    (f : Nat) (h : (g.length + 7) * (unprocessedCount g st.processed + 1) ≤ f) :
    processNodeShape f g st shape ≠ none := by
  apply (fuelPack f).1
  · have h7 : 7 ≤ (g.length + 7) * (unprocessedCount g st.processed + 1) := by
      calc 7 ≤ g.length + 7 := by omega
        _ = (g.length + 7) * 1 := by ring
        _ ≤ (g.length + 7) * (unprocessedCount g st.processed + 1) :=
            Nat.mul_le_mul_left _ (by omega)
    omega
  · refine Or.inr ?_
    have hle : unprocessedCount g (shape :: st.processed) ≤ unprocessedCount g st.processed :=
      unprocessedCount_cons_le
    calc (g.length + 7) * unprocessedCount g (shape :: st.processed) + (g.length + 7)
        ≤ (g.length + 7) * unprocessedCount g st.processed + (g.length + 7) := by
          have := Nat.mul_le_mul_left (g.length + 7) hle
          omega
      _ = (g.length + 7) * (unprocessedCount g st.processed + 1) := by ring
      _ ≤ f := h

/-- C4 witness: on the self-referential base graph, fuel 27 meets the
bound and lowering the cyclic shape does not run out of fuel. -/
theorem processNodeShape_terminates_witness :
    (csG3.length + 7) * (unprocessedCount csG3 initState.processed + 1) ≤ 27 ∧
    processNodeShape 27 csG3 initState csA ≠ none :=
  ⟨by decide, processNodeShape_terminates csG3 initState csA 27 (by decide)⟩

/-- C5: the four behaviours of sh:in lowering — a one-member list gives
a fixed value and drops the type attribute, a list with two or more
members gives an inline restriction with one enumeration facet per
member in list order (base from the declared datatype, else string) and
drops the type attribute, the nil terminator gives no constraint, and a
non-list non-nil value becomes a single fixed value. -/
theorem enumeration_cases (g : Graph) (shape : RDFNode) (el : XML)
    (inVal : RDFNode) (rest : List RDFNode)
    (h0 : objects g shape shIn = inVal :: rest) :
    (hasTripleSP g inVal rdfFirst = true →
       (∀ x, getRdfListItems g inVal = [x] →
          processListConstraints g shape el =
            (el.setAttr "fixed" (nodeStr x)).delAttr "type") ∧
       (2 ≤ (getRdfListItems g inVal).length →
          processListConstraints g shape el =
            (el.addChild (XML.elem "simpleType" []
              [XML.elem "restriction" [("base", listBaseType g shape)]
                ((getRdfListItems g inVal).map enumFacet)])).delAttr "type")) ∧
    (hasTripleSP g inVal rdfFirst = false → inVal = rdfNil →
       processListConstraints g shape el = el) ∧
    (hasTripleSP g inVal rdfFirst = false → inVal ≠ rdfNil →
       processListConstraints g shape el = el.setAttr "fixed" (nodeStr inVal)) := by
  unfold processListConstraints
  rw [h0]
  simp only [List.head?_cons]
  refine ⟨?_, ?_, ?_⟩
  · intro ht
    constructor
    · intro x hx
      simp [ht, hx]
    · intro hlen
      have h1 : ¬((getRdfListItems g inVal).length = 1) := by omega
      have h2 : (getRdfListItems g inVal).isEmpty = false := by
        cases hv : getRdfListItems g inVal with
        | nil => rw [hv] at hlen; simp at hlen
        | cons a t => rfl
      simp [ht, h1, h2]
  · intro hf hnil
    have hcond : ¬(hasTripleSP g inVal rdfFirst = true) := by simp [hf]
    rw [if_neg hcond, if_pos hnil]
  · intro hf hne
    have hcond : ¬(hasTripleSP g inVal rdfFirst = true) := by simp [hf]
    rw [if_neg hcond, if_neg hne]

/-- C5 witness: a two-member enumeration list produces the inline
restriction with both enumeration facets and drops the type. -/
theorem enumeration_cases_witness :
    processListConstraints csG5 csQ csEl5 =
      (csEl5.addChild (XML.elem "simpleType" []
        [XML.elem "restriction" [("base", listBaseType csG5 csQ)]
          ((getRdfListItems csG5 csL).map enumFacet)])).delAttr "type" :=
  ((enumeration_cases csG5 csQ csEl5 csL [] rfl).1 rfl).2 (by decide)

theorem unionMemberTypes_all (g : Graph) (items : List RDFNode)
    (h : areSimpleTypeConstraints g items = true) :
    unionMemberTypes g items = String.intercalate " " (items.map (fun i =>
      localName (nodeStr ((value g i shDatatype).getD (RDFNode.lit ""))))) := by
  unfold unionMemberTypes
  congr 1
  induction items with
  | nil => rfl
  | cons i t ih =>
    unfold areSimpleTypeConstraints at h
    simp only [List.all_cons, Bool.and_eq_true] at h
    simp only [List.filterMap_cons, List.map_cons, h.1, if_true]
    congr 1
    exact ih h.2

/-- C6: disjunction policy — an sh:or list all of whose branches carry
a datatype produces a simpleType wrapping a Union whose memberTypes are
exactly the branch datatype local names in branch order; a list with
any branch lacking a datatype produces a Choice over the lowered
branches; and the property-level sh:or handling is decided by the very
same scalar-uniform predicate. -/
theorem choice_union_policy :
    (∀ (f : Nat) (g : Graph) (st : ConvState) (l : RDFNode),
       areSimpleTypeConstraints g (getRdfListItems g l) = true →
       processChoiceConstraint (Nat.succ f) g st l false =
         some (XML.elem "simpleType" []
           [XML.elem "union" [("memberTypes",
             String.intercalate " " ((getRdfListItems g l).map (fun i =>
               localName (nodeStr ((value g i shDatatype).getD (RDFNode.lit ""))))))] []],
           st)) ∧
    (∀ (f : Nat) (g : Graph) (st : ConvState) (l : RDFNode),
       areSimpleTypeConstraints g (getRdfListItems g l) = false →
       processChoiceConstraint (Nat.succ f) g st l false =
         (processRdfListItems f g st (getRdfListItems g l)).map
           (fun p => (XML.elem "choice" [] p.1, p.2))) ∧
    (∀ (g : Graph) (st : ConvState) (shape orNode : RDFNode)
       (rest : List RDFNode) (w : RDFNode),
       shape ∉ st.processed →
       psIsAttribute g shape = false →
       objects g shape shOr = orNode :: rest →
       value g shape shPath = some w →
       (processPropertyShape g st shape).1 =
         some ((XML.elem "element" [("name", psName g shape)] []).addChild
           (XML.elem "simpleType" []
             [if areSimpleTypeConstraints g (getRdfListItems g orNode) = true then
                XML.elem "union"
                  [("memberTypes", unionMemberTypes g (getRdfListItems g orNode))] []
              else XML.elem "restriction" [("base", "string")] []]))) := by
  refine ⟨?_, ?_, ?_⟩
  · intro f g st l h
    rw [processChoiceConstraint_or_simple h, unionMemberTypes_all g _ h]
  · intro f g st l h
    exact processChoiceConstraint_or_complex h
  · intro g st shape orNode rest w hmem hattr hor hpath
    unfold processPropertyShape
    rw [if_neg hmem]
    simp [hpath, hor, hattr]

/-- C6 witness: two datatype-only branches produce the union with both
local names, in order, joined by a space. -/
theorem choice_union_policy_witness :
    processChoiceConstraint 1 csG6 initState csL false =
      some (XML.elem "simpleType" []
        [XML.elem "union" [("memberTypes", "string integer")] []], initState) :=
  choice_union_policy.1 0 csG6 initState csL rfl

theorem nodeShapeTElems_shortcut (g : Graph) (shape : RDFNode) (bn : String)
    (xc oc : Option XML) (results : List XML)
    (hprops : objects g shape shProperty = []) :
    nodeShapeTElems g shape (some bn) (nodeShapeCT g shape (some bn) xc oc results) =
      (objects g shape shTargetClass).map
        (fun _ => XML.elem "element" [("name", getShapeName g shape), ("type", bn)] []) := by
  unfold nodeShapeTElems nodeShapeCT
  rw [hprops]
  rfl

theorem nodeShapeTElems_own_of_no_base (g : Graph) (shape : RDFNode) (ct : XML) :
    nodeShapeTElems g shape none ct =
      (objects g shape shTargetClass).map
        (fun _ => XML.elem "element"
          [("name", getShapeName g shape), ("type", getShapeName g shape)] []) := rfl

theorem nodeShapeTElems_own_of_props (g : Graph) (shape : RDFNode)
    (bn : Option String) (ct : XML)
    (hprops : objects g shape shProperty ≠ []) :
    nodeShapeTElems g shape bn ct =
      (objects g shape shTargetClass).map
        (fun _ => XML.elem "element"
          [("name", getShapeName g shape), ("type", getShapeName g shape)] []) := by
  unfold nodeShapeTElems
  have he : (objects g shape shProperty).isEmpty = false := by
    cases hv : objects g shape shProperty with
    | nil => exact absurd hv hprops
    | cons a t => rfl
  rw [he]
  simp [Bool.and_false]

/-- C7 counterexample: a node shape with a base, an exclusive choice, a
target class, and no sh:property triples still gets the base name as the
type of its top-level element; the claim demands the own type name as
soon as a choice is present, but the source only checks the direct
children of the type and the sh:property triples, and the choice lives
inside the extension wrapper. -/
theorem shortcut_with_choice_counterexample :
    (processNodeShape 9 csG7 initState csA).map
      (fun p => (p.2.root.filter (fun e => decide (e.tag = "element"))).map
        (fun e => e.getAttr "type")) = some [some "B"] ∧
    getShapeName csG7 csA = "A" ∧ ("B" : String) ≠ "A" :=
  ⟨rfl, rfl, by decide⟩

/-- C7 amended: the target-class shortcut applies exactly when the base
lowering returned a type and the shape declares no sh:property triples —
regardless of any exclusive choice or disjunction.  First part: under
those conditions every emitted top-level element carries the base name
as its type.  Second part: in every other successful uncached lowering
(no base reference, or the base lowering yielded none as on a cyclic
base, or at least one sh:property triple), every emitted top-level
element carries the shape's own type name. -/
theorem target_class_shortcut_condition :
    (∀ (f : Nat) (g : Graph) (st : ConvState) (shape b : RDFNode) (r : Option XML)
       (st' : ConvState) (bq : Option XML × ConvState),
       shape ∉ st.processed →
       (objects g shape shNode).head? = some b →
       processNodeShape f g { st with processed := shape :: st.processed } b = some bq →
       bq.1.isSome = true →
       objects g shape shProperty = [] →
       processNodeShape (Nat.succ f) g st shape = some (r, st') →
       ∃ mid ct, st'.root = mid ++ ((objects g shape shTargetClass).map
         (fun _ => XML.elem "element"
           [("name", getShapeName g shape), ("type", getShapeName g b)] [])) ++ [ct]) ∧
    (∀ (f : Nat) (g : Graph) (st : ConvState) (shape : RDFNode) (r : Option XML)
       (st' : ConvState),
       shape ∉ st.processed →
       ((objects g shape shNode).head? = none ∨
        (∃ b bq, (objects g shape shNode).head? = some b ∧
          processNodeShape f g { st with processed := shape :: st.processed } b = some bq ∧
          bq.1.isSome = false) ∨
        objects g shape shProperty ≠ []) →
       processNodeShape (Nat.succ f) g st shape = some (r, st') →
       ∃ mid ct, st'.root = mid ++ ((objects g shape shTargetClass).map
         (fun _ => XML.elem "element"
           [("name", getShapeName g shape), ("type", getShapeName g shape)] [])) ++ [ct]) := by
  constructor
  · intro f g st shape b r st' bq hmem hb hbase hsome hprops h
    rw [processNodeShape_with_base hmem hb, hbase] at h
    simp only [Option.some_bind] at h
    obtain ⟨v, hv⟩ := Option.isSome_iff_exists.mp hsome
    rw [hv] at h
    simp only [Option.map_some'] at h
    obtain ⟨xc, oc, st4, _, _, hp⟩ :=
      nodeShapeAfterBase_shape f g bq.2 shape (some (getShapeName g b)) (r, st') h
    rw [nodeShapeFinish_eq] at hp
    have hst : st' = _ := congrArg Prod.snd hp
    refine ⟨(lowerProps g (objects g shape shProperty) st4).2.root,
      nodeShapeCT g shape (some (getShapeName g b)) xc oc
        (lowerProps g (objects g shape shProperty) st4).1, ?_⟩
    rw [hst, nodeShapeTElems_shortcut g shape (getShapeName g b) xc oc _ hprops]
  · intro f g st shape r st' hmem hcase h
    rcases hcase with hb | ⟨b, bq, hb, hbase, hnone⟩ | hprops
    · rw [processNodeShape_no_base hmem hb] at h
      obtain ⟨xc, oc, st4, _, _, hp⟩ :=
        nodeShapeAfterBase_shape f g { st with processed := shape :: st.processed }
          shape none (r, st') h
      rw [nodeShapeFinish_eq] at hp
      have hst : st' = _ := congrArg Prod.snd hp
      refine ⟨(lowerProps g (objects g shape shProperty) st4).2.root,
        nodeShapeCT g shape none xc oc
          (lowerProps g (objects g shape shProperty) st4).1, ?_⟩
      rw [hst, nodeShapeTElems_own_of_no_base]
    · rw [processNodeShape_with_base hmem hb, hbase] at h
      simp only [Option.some_bind] at h
      have hbq : bq.1 = none := by
        cases hv : bq.1 with
        | none => rfl
        | some v => rw [hv] at hnone; cases hnone
      rw [hbq] at h
      simp only [Option.map_none'] at h
      obtain ⟨xc, oc, st4, _, _, hp⟩ :=
        nodeShapeAfterBase_shape f g bq.2 shape none (r, st') h
      rw [nodeShapeFinish_eq] at hp
      have hst : st' = _ := congrArg Prod.snd hp
      refine ⟨(lowerProps g (objects g shape shProperty) st4).2.root,
        nodeShapeCT g shape none xc oc
          (lowerProps g (objects g shape shProperty) st4).1, ?_⟩
      rw [hst, nodeShapeTElems_own_of_no_base]
    · obtain ⟨bn, xc, oc, st4, _, _, hp⟩ :=
        processNodeShape_uncached_shape f g st shape r st' hmem h
      rw [nodeShapeFinish_eq] at hp
      have hst : st' = _ := congrArg Prod.snd hp
      refine ⟨(lowerProps g (objects g shape shProperty) st4).2.root,
        nodeShapeCT g shape bn xc oc
          (lowerProps g (objects g shape shProperty) st4).1, ?_⟩
      rw [hst, nodeShapeTElems_own_of_props g shape bn _ hprops]

/-- C7 amended witness: the shape with only a base and a target class
emits its top-level element typed with the base name, and the shape
with a target class and no base emits its top-level element typed with
its own name. -/
theorem target_class_shortcut_condition_witness :
    (∃ mid ct, csSt7.root = mid ++ ((objects csGW7 csA shTargetClass).map
      (fun _ => XML.elem "element"
        [("name", getShapeName csGW7 csA), ("type", getShapeName csGW7 csB)] [])) ++ [ct]) ∧
    (∃ mid ct, csStC2.root = mid ++ ((objects csG2 csA shTargetClass).map
      (fun _ => XML.elem "element"
        [("name", getShapeName csG2 csA), ("type", getShapeName csG2 csA)] [])) ++ [ct]) :=
  ⟨target_class_shortcut_condition.1 3 csGW7 initState csA csB (some csCTA) csSt7 csBq7
     (by simp [initState]) rfl rfl rfl rfl rfl,
   target_class_shortcut_condition.2 2 csG2 initState csA (some csCTW) csStC2
     (by simp [initState]) (Or.inl rfl) rfl⟩

/-- C8: length collapse — equal present minLength and maxLength with no
explicit exact length yield one exact-length facet carrying the shared
value; with no exact length and differing bounds, the present bound
facets are emitted instead. -/
theorem length_collapse (minL maxL exactL : Option RDFNode) (v : RDFNode) :
    ((minL = some v ∧ maxL = some v ∧ exactL = none) →
       lengthFacetList minL maxL exactL = [XML.elem "length" [("value", nodeStr v)] []]) ∧
    ((exactL = none ∧ minL ≠ maxL) →
       lengthFacetList minL maxL exactL =
         (minL.map (fun w => XML.elem "minLength" [("value", nodeStr w)] [])).toList ++
         (maxL.map (fun w => XML.elem "maxLength" [("value", nodeStr w)] [])).toList) := by
  constructor
  · rintro ⟨rfl, rfl, rfl⟩
    simp [lengthFacetList]
  · rintro ⟨rfl, hne⟩
    unfold lengthFacetList
    rw [if_neg]
    · rintro ⟨-, -, -, he⟩
      exact hne he

/-- C8 witness: minLength and maxLength both 5 with no exact length
produce the single length facet with value 5. -/
theorem length_collapse_witness :
    lengthFacetList (some (RDFNode.lit "5")) (some (RDFNode.lit "5")) none =
      [XML.elem "length" [("value", "5")] []] :=
  (length_collapse (some (RDFNode.lit "5")) (some (RDFNode.lit "5")) none
    (RDFNode.lit "5")).1 ⟨rfl, rfl, rfl⟩

/-- C9: a property shape with no sh:path value lowers to none: no
element or attribute node is produced, the caches and the root are left
untouched (only the processed mark is set), and no error occurs — the
lowering is a total function returning the pair below whatever other
constraints the shape carries. -/
theorem pathless_property_skip (g : Graph) (st : ConvState) (shape : RDFNode)
    (hmem : shape ∉ st.processed) (hpath : value g shape shPath = none) :
    processPropertyShape g st shape =
      (none, { st with processed := shape :: st.processed }) := by
  unfold processPropertyShape
  rw [if_neg hmem]
  simp [hpath]

/-- C9 witness: a pathless property shape in the empty graph is
skipped, producing none and only the processed mark. -/
theorem pathless_property_skip_witness :
    processPropertyShape [] initState csQ = (none, ⟨[csQ], [], [], []⟩) :=
  pathless_property_skip [] initState csQ (by simp [initState]) rfl

/-- C10: a disjunction whose list walk yields no items is vacuously
scalar-uniform, so lowering emits a value-level union whose memberTypes
text is the empty string — not a choice and not nothing. -/
theorem empty_disjunction_union (f : Nat) (g : Graph) (st : ConvState) (l : RDFNode)
    (h : getRdfListItems g l = []) :
    areSimpleTypeConstraints g (getRdfListItems g l) = true ∧
    processChoiceConstraint (Nat.succ f) g st l false =
      some (XML.elem "simpleType" []
        [XML.elem "union" [("memberTypes", "")] []], st) := by
  have hs : areSimpleTypeConstraints g (getRdfListItems g l) = true := by
    rw [h]; rfl
  refine ⟨hs, ?_⟩
  rw [processChoiceConstraint_or_simple hs, h]
  rfl

/-- C10 witness: the immediately-terminated list in the empty graph
produces the union with an empty memberTypes text. -/
theorem empty_disjunction_union_witness :
    areSimpleTypeConstraints ([] : Graph) (getRdfListItems [] rdfNil) = true ∧
    processChoiceConstraint 1 [] initState rdfNil false =
      some (XML.elem "simpleType" []
        [XML.elem "union" [("memberTypes", "")] []], initState) :=
  empty_disjunction_union 0 [] initState rdfNil rfl
